import Mathlib

/-!
Shallow embedding of the `fixed32-math` crate (src/lib.rs): 2D vectors and
axis-aligned rectangles over the external fixed-point scalar type `fixed32::Fp`.

The scalar `Fp` is an external collaborator of the repository (spec §1, §6): it
is an opaque fixed-point type with total order, exact addition/subtraction/
negation/min/max, and multiplication/division/square-root whose rounding the
spec leaves to that type. We embed the raw fixed-point value as an `Int`
(Q16.16: the represented number is `raw / 2^16`). Ordering, addition,
subtraction, negation, `min` and `max` on raw values coincide exactly with the
corresponding operations on represented values, so every rectangle operation
below that uses only those is embedded exactly. Multiplication, division and
square root are modelled from the spec with a fixed rounding choice; the
theorems below that touch them are insensitive to that choice except where the
doc comment says otherwise.
-/

namespace Fixed32Math

/-- Raw value of the external fixed-point scalar `fixed32::Fp`, in Q16.16:
the represented number is `raw / 65536`. -/
abbrev Fp := Int

/-- The Q16.16 scaling factor `2^16`. -/
def fpScale : Int := 65536

/-- Modelled from the spec: multiplication of the external fixed-point type
`Fp`, which is not part of this repository. On raw Q16.16 values the product is
`(a * b) / 2^16`; the spec does not fix the rounding, modelled here as
truncation toward zero. -/
def fpMul (a b : Fp) : Fp := (a * b).tdiv fpScale

/-- Modelled from the spec: division of the external fixed-point type `Fp`,
which is not part of this repository. On raw Q16.16 values the quotient is
`(a * 2^16) / b`; the spec does not fix the rounding, modelled here as
truncation toward zero. -/
def fpDiv (a b : Fp) : Fp := (a * fpScale).tdiv b

/-- Modelled from the spec: square root of the external fixed-point type `Fp`,
which is not part of this repository ("rounding behavior is whatever that type
defines"). On a non-negative raw Q16.16 value `a` the root of the represented
value has raw value `sqrt (a * 2^16)`, modelled here with the floor square
root; negative inputs (outside the real-valued domain) are clamped to 0. -/
def fpSqrt (a : Fp) : Fp := Int.ofNat (Nat.sqrt (a.toNat * 65536))

/-- Raw value of `Fp::from(n)` for a small integer `n`. -/
def fpFromInt (n : Int) : Fp := n * fpScale

/-- Raw value of `Fp::from(2.0)`, used by `Rect::expanded`/`Rect::contracted`. -/
def fpTwo : Fp := 2 * fpScale

/-- `Vector` from src/lib.rs: a 2D point/direction with fixed-point fields
(the fields hold raw `Fp` values, i.e. integers). -/
structure Vector where
  x : Int
  y : Int
deriving DecidableEq

/-- `impl Add for Vector` (component-wise). -/
def Vector.add (a b : Vector) : Vector := ⟨a.x + b.x, a.y + b.y⟩

/-- `impl Sub for Vector` (component-wise). -/
def Vector.sub (a b : Vector) : Vector := ⟨a.x - b.x, a.y - b.y⟩

/-- `impl Mul<Fp> for Vector`: both components multiplied by the scalar. -/
def Vector.mulFp (v : Vector) (k : Fp) : Vector := ⟨fpMul v.x k, fpMul v.y k⟩

/-- `Vector::sqr_len`: `x*x + y*y`. -/
def Vector.sqr_len (v : Vector) : Fp := fpMul v.x v.x + fpMul v.y v.y

/-- `Vector::len`: `sqr_len().sqrt()`. -/
def Vector.len (v : Vector) : Fp := fpSqrt v.sqr_len

/-- `Vector::normalize`: `None` when `len()` is zero, otherwise each component
divided by the length. -/
def Vector.normalize (v : Vector) : Option Vector :=
  if v.len = 0 then none
  else some ⟨fpDiv v.x v.len, fpDiv v.y v.len⟩

/-- `Rect` from src/lib.rs: position (one corner) plus size. -/
structure Rect where
  pos : Vector
  size : Vector
deriving DecidableEq

/-- `Rect::top`: `pos.y + size.y`. -/
def Rect.top (r : Rect) : Fp := r.pos.y + r.size.y

/-- `Rect::bottom`: `pos.y`. -/
def Rect.bottom (r : Rect) : Fp := r.pos.y

/-- `Rect::left`: `pos.x`. -/
def Rect.left (r : Rect) : Fp := r.pos.x

/-- `Rect::right`: `pos.x + size.x`. -/
def Rect.right (r : Rect) : Fp := r.pos.x + r.size.x

/-- `Rect::intersection`: per-axis overlap range `max(lo)..min(hi)`; `None`
when either range is empty (`Range::is_empty`, i.e. `end <= start`), otherwise
the rectangle with `pos` the range starts and `size` the range widths. -/
def Rect.intersection (a b : Rect) : Option Rect :=
  if min (a.pos.x + a.size.x) (b.pos.x + b.size.x) ≤ max a.pos.x b.pos.x ∨
     min (a.pos.y + a.size.y) (b.pos.y + b.size.y) ≤ max a.pos.y b.pos.y then
    none
  else
    some ⟨⟨max a.pos.x b.pos.x, max a.pos.y b.pos.y⟩,
          ⟨min (a.pos.x + a.size.x) (b.pos.x + b.size.x) - max a.pos.x b.pos.x,
           min (a.pos.y + a.size.y) (b.pos.y + b.size.y) - max a.pos.y b.pos.y⟩⟩

/-- `Rect::union`: `pos` is the component-wise minimum of positions, the far
corner the component-wise maximum of far corners, `size` their difference. -/
def Rect.union (a b : Rect) : Rect :=
  ⟨⟨min a.pos.x b.pos.x, min a.pos.y b.pos.y⟩,
   ⟨max (a.pos.x + a.size.x) (b.pos.x + b.size.x) - min a.pos.x b.pos.x,
    max (a.pos.y + a.size.y) (b.pos.y + b.size.y) - min a.pos.y b.pos.y⟩⟩

/-- `Rect::contains_point`: half-open box test, lower bounds inclusive and
upper bounds exclusive. -/
def Rect.contains_point (r : Rect) (point : Vector) : Bool :=
  decide (point.x ≥ r.pos.x) && decide (point.x < r.pos.x + r.size.x) &&
  decide (point.y ≥ r.pos.y) && decide (point.y < r.pos.y + r.size.y)

/-- `Rect::contains_rect`: contains the other's `pos` and its far corner
`pos + size`. -/
def Rect.contains_rect (a other : Rect) : Bool :=
  a.contains_point other.pos && a.contains_point (other.pos.add other.size)

/-- `Rect::is_overlapping`: negation of strict separation on either axis. -/
def Rect.is_overlapping (a other : Rect) : Bool :=
  !(decide (a.right < other.left) || decide (a.left > other.right) ||
    decide (a.bottom > other.top) || decide (a.top < other.bottom))

/-- `Rect::expanded`: `pos - offset`, `size + offset * Fp::from(2.0)`. -/
def Rect.expanded (r : Rect) (offset : Vector) : Rect :=
  ⟨r.pos.sub offset, r.size.add (offset.mulFp fpTwo)⟩

/-- `Rect::contracted`: `pos + offset`, `size - offset * Fp::from(2.0)`. -/
def Rect.contracted (r : Rect) (offset : Vector) : Rect :=
  ⟨r.pos.add offset, r.size.sub (offset.mulFp fpTwo)⟩

/-- Fixed-point multiplication by `Fp::from(2.0)` is exact doubling: the
rounding in `fpMul` never fires because the product is a multiple of the
scale. -/
theorem fpMul_fpTwo (k : Fp) : fpMul k fpTwo = 2 * k := by
  have h : k * (2 * fpScale) = 2 * k * fpScale := by ring
  rw [fpMul, fpTwo, h, Int.mul_tdiv_cancel]
  simp [fpScale]

/-- C1: `Rect::intersection` returns `None` iff on the x axis or the y axis
the overlap interval is empty, i.e. `min(hi) <= max(lo)` (so non-overlapping
and edge-touching rectangles yield `None`); otherwise it returns `Some` of the
rectangle with `pos` the component-wise `max` of positions and `size` the
per-axis `min(hi) - max(lo)`. -/
theorem claim_C1_intersection (a b : Rect) :
    (a.intersection b = none ↔
      min (a.pos.x + a.size.x) (b.pos.x + b.size.x) ≤ max a.pos.x b.pos.x ∨
      min (a.pos.y + a.size.y) (b.pos.y + b.size.y) ≤ max a.pos.y b.pos.y) ∧
    (¬(min (a.pos.x + a.size.x) (b.pos.x + b.size.x) ≤ max a.pos.x b.pos.x ∨
       min (a.pos.y + a.size.y) (b.pos.y + b.size.y) ≤ max a.pos.y b.pos.y) →
      a.intersection b =
        some ⟨⟨max a.pos.x b.pos.x, max a.pos.y b.pos.y⟩,
              ⟨min (a.pos.x + a.size.x) (b.pos.x + b.size.x) - max a.pos.x b.pos.x,
               min (a.pos.y + a.size.y) (b.pos.y + b.size.y) - max a.pos.y b.pos.y⟩⟩) := by
  unfold Rect.intersection
  split_ifs with h
  · exact ⟨iff_of_true rfl h, fun hn => absurd h hn⟩
  · exact ⟨iff_of_false (by simp) h, fun _ => rfl⟩

/-- Witness for C1 at the repository's own test fixture: rects
`(0,0,10,10)` and `(5,5,10,10)` (raw Q16.16 values) intersect in
`(5,5,5,5)`. -/
theorem claim_C1_witness :
    Rect.intersection ⟨⟨0, 0⟩, ⟨655360, 655360⟩⟩ ⟨⟨327680, 327680⟩, ⟨655360, 655360⟩⟩ =
      some ⟨⟨327680, 327680⟩, ⟨327680, 327680⟩⟩ := by
  have h := (claim_C1_intersection ⟨⟨0, 0⟩, ⟨655360, 655360⟩⟩
      ⟨⟨327680, 327680⟩, ⟨655360, 655360⟩⟩).2 (by decide)
  rw [h]
  decide

/-- C2: `Rect::is_overlapping` returns `false` iff the rectangles are strictly
separated on some axis; all four comparisons are strict, so rectangles whose
edges exactly touch are reported as overlapping. -/
theorem claim_C2_is_overlapping (a b : Rect) :
    a.is_overlapping b = false ↔
      a.right < b.left ∨ a.left > b.right ∨ a.bottom > b.top ∨ a.top < b.bottom := by
  rw [Rect.is_overlapping]
  simp only [Bool.not_eq_false', Bool.or_eq_true, decide_eq_true_eq, or_assoc]

/-- C3: `Vector::normalize` returns `None` iff `len()` is exactly zero;
otherwise it returns `Some` of the vector with each component divided by the
length. (This holds for every choice of rounding of the external `Fp`
square root and division, since `normalize` branches exactly on `len() == 0`.) -/
theorem claim_C3_normalize (v : Vector) :
    (v.normalize = none ↔ v.len = 0) ∧
    (v.len ≠ 0 → v.normalize = some ⟨fpDiv v.x v.len, fpDiv v.y v.len⟩) := by
  unfold Vector.normalize
  split_ifs with h <;> simp [h]

/-- Witness for C3 at the unit vector `(1,0)` (raw `(65536,0)`): its length is
the non-zero value 1 and `normalize` returns `Some (1,0)`. -/
theorem claim_C3_witness :
    Vector.len ⟨65536, 0⟩ ≠ 0 ∧ Vector.normalize ⟨65536, 0⟩ = some ⟨65536, 0⟩ := by
  have hsq : Vector.sqr_len ⟨65536, 0⟩ = 65536 := by decide
  have hlen : Vector.len ⟨65536, 0⟩ = 65536 := by
    unfold Vector.len
    rw [hsq]
    unfold fpSqrt
    have ht : (65536 : Int).toNat * 65536 = 65536 * 65536 := by decide
    rw [ht, Nat.sqrt_eq]
    decide
  have hne : Vector.len ⟨65536, 0⟩ ≠ 0 := by rw [hlen]; decide
  have h2 := (claim_C3_normalize ⟨65536, 0⟩).2 hne
  rw [hlen] at h2
  exact ⟨hne, h2.trans (by decide)⟩

/-- C5: `Rect::contains_point` is the half-open box test, lower bounds
inclusive and upper bounds exclusive on both axes; on the rect with pos (0,0)
and size (10,10), the points (5,5) and (9,5) are contained and (10,5) is not. -/
theorem claim_C5_contains_point (r : Rect) (pt : Vector) :
    (r.contains_point pt = true ↔
      r.pos.x ≤ pt.x ∧ pt.x < r.pos.x + r.size.x ∧
      r.pos.y ≤ pt.y ∧ pt.y < r.pos.y + r.size.y) ∧
    Rect.contains_point ⟨⟨fpFromInt 0, fpFromInt 0⟩, ⟨fpFromInt 10, fpFromInt 10⟩⟩
      ⟨fpFromInt 5, fpFromInt 5⟩ = true ∧
    Rect.contains_point ⟨⟨fpFromInt 0, fpFromInt 0⟩, ⟨fpFromInt 10, fpFromInt 10⟩⟩
      ⟨fpFromInt 9, fpFromInt 5⟩ = true ∧
    Rect.contains_point ⟨⟨fpFromInt 0, fpFromInt 0⟩, ⟨fpFromInt 10, fpFromInt 10⟩⟩
      ⟨fpFromInt 10, fpFromInt 5⟩ = false := by
  refine ⟨?_, by decide, by decide, by decide⟩
  simp [Rect.contains_point, and_assoc]

/-- C6: `Rect::contains_rect a b` holds iff `a` contains the point `b.pos` and
the far corner `b.pos + b.size`, each under the half-open `contains_point`
test. -/
theorem claim_C6_contains_rect (a b : Rect) :
    a.contains_rect b = true ↔
      a.contains_point b.pos = true ∧ a.contains_point (b.pos.add b.size) = true := by
  simp [Rect.contains_rect]

/-- C7: `Rect::union` is total (its result type carries no absence value): its
`pos` is the component-wise minimum of positions and its far corner
`pos + size` the component-wise maximum of far corners; and it is commutative,
associative, and idempotent. -/
theorem claim_C7_union :
    (∀ a b : Rect,
      (a.union b).pos = ⟨min a.pos.x b.pos.x, min a.pos.y b.pos.y⟩ ∧
      ((a.union b).pos).add ((a.union b).size) = ⟨max a.right b.right, max a.top b.top⟩) ∧
    (∀ a b : Rect, a.union b = b.union a) ∧
    (∀ a b c : Rect, (a.union b).union c = a.union (b.union c)) ∧
    (∀ r : Rect, r.union r = r) := by
  refine ⟨?_, ?_, ?_, ?_⟩
  · intro a b
    rcases a with ⟨⟨ax, ay⟩, ⟨aw, ah⟩⟩
    rcases b with ⟨⟨bx, by'⟩, ⟨bw, bh⟩⟩
    simp only [Rect.union, Vector.add, Rect.right, Rect.top, Vector.mk.injEq, true_and,
      and_true]
    omega
  · intro a b
    rcases a with ⟨⟨ax, ay⟩, ⟨aw, ah⟩⟩
    rcases b with ⟨⟨bx, by'⟩, ⟨bw, bh⟩⟩
    simp only [Rect.union, Rect.mk.injEq, Vector.mk.injEq]
    omega
  · intro a b c
    rcases a with ⟨⟨ax, ay⟩, ⟨aw, ah⟩⟩
    rcases b with ⟨⟨bx, by'⟩, ⟨bw, bh⟩⟩
    rcases c with ⟨⟨cx, cy⟩, ⟨cw, ch⟩⟩
    simp only [Rect.union, Rect.mk.injEq, Vector.mk.injEq]
    omega
  · intro r
    rcases r with ⟨⟨rx, ry⟩, ⟨rw', rh⟩⟩
    simp only [Rect.union, Rect.mk.injEq, Vector.mk.injEq]
    omega

/-- C8: `Rect::expanded` moves `pos` down by the offset and grows `size` by
exactly twice the offset (fixed-point multiplication by 2 is exact);
`contracted` does the opposite; `contracted` inverts `expanded`; and
`contracted` is unguarded: an offset beyond half the size yields a
negative-size rectangle. -/
theorem claim_C8_expanded_contracted :
    (∀ (r : Rect) (o : Vector), r.expanded o =
      ⟨⟨r.pos.x - o.x, r.pos.y - o.y⟩, ⟨r.size.x + 2 * o.x, r.size.y + 2 * o.y⟩⟩) ∧
    (∀ (r : Rect) (o : Vector), r.contracted o =
      ⟨⟨r.pos.x + o.x, r.pos.y + o.y⟩, ⟨r.size.x - 2 * o.x, r.size.y - 2 * o.y⟩⟩) ∧
    (∀ (r : Rect) (o : Vector), (r.expanded o).contracted o = r) ∧
    (∃ (r : Rect) (o : Vector), 2 * o.x > r.size.x ∧ 2 * o.y > r.size.y ∧
      (r.contracted o).size.x < 0 ∧ (r.contracted o).size.y < 0) := by
  refine ⟨?_, ?_, ?_, ?_⟩
  · intro r o
    simp only [Rect.expanded, Vector.sub, Vector.add, Vector.mulFp, fpMul_fpTwo,
      Rect.mk.injEq, Vector.mk.injEq]
  · intro r o
    simp only [Rect.contracted, Vector.sub, Vector.add, Vector.mulFp, fpMul_fpTwo,
      Rect.mk.injEq, Vector.mk.injEq]
  · intro r o
    rcases r with ⟨⟨rx, ry⟩, ⟨rw', rh⟩⟩
    rcases o with ⟨ox, oy⟩
    simp only [Rect.expanded, Rect.contracted, Vector.sub, Vector.add, Vector.mulFp,
      fpMul_fpTwo, Rect.mk.injEq, Vector.mk.injEq]
    omega
  · exact ⟨⟨⟨0, 0⟩, ⟨65536, 65536⟩⟩, ⟨65536, 65536⟩, by decide, by decide, by decide, by decide⟩

/-- C9: no rectangle contains itself: the far corner `pos + size` always fails
the exclusive upper-bound comparison of `contains_point`, so
`contains_rect r r` is `false` for every `r`. -/
theorem claim_C9_no_self_containment (r : Rect) : r.contains_rect r = false := by
  simp [Rect.contains_rect, Rect.contains_point, Vector.add]

/-- C10: whenever `Rect::intersection` returns `Some res`, both size
components of `res` are strictly positive. -/
theorem claim_C10_intersection_nondegenerate (a b res : Rect)
    (h : a.intersection b = some res) : 0 < res.size.x ∧ 0 < res.size.y := by
  unfold Rect.intersection at h
  split_ifs at h with hc
  obtain rfl := (Option.some.inj h).symm
  push_neg at hc
  constructor
  · show 0 < min (a.pos.x + a.size.x) (b.pos.x + b.size.x) - max a.pos.x b.pos.x
    omega
  · show 0 < min (a.pos.y + a.size.y) (b.pos.y + b.size.y) - max a.pos.y b.pos.y
    omega

/-- Witness for C10: the test fixture rects `(0,0,10,10)` and `(5,5,10,10)`
(raw Q16.16 values) intersect in a rectangle with strictly positive size. -/
theorem claim_C10_witness :
    Rect.intersection ⟨⟨0, 0⟩, ⟨655360, 655360⟩⟩ ⟨⟨327680, 327680⟩, ⟨655360, 655360⟩⟩ =
      some ⟨⟨327680, 327680⟩, ⟨327680, 327680⟩⟩ ∧
    (0 : Int) < (Rect.mk ⟨327680, 327680⟩ ⟨327680, 327680⟩).size.x ∧
    (0 : Int) < (Rect.mk ⟨327680, 327680⟩ ⟨327680, 327680⟩).size.y := by
  have h := claim_C10_intersection_nondegenerate ⟨⟨0, 0⟩, ⟨655360, 655360⟩⟩
    ⟨⟨327680, 327680⟩, ⟨655360, 655360⟩⟩ ⟨⟨327680, 327680⟩, ⟨327680, 327680⟩⟩ (by decide)
  exact ⟨by decide, h.1, h.2⟩

end Fixed32Math
